import Mathlib
/-!
Verification of the JobTrackr preparation-page data model: the folder/item
hierarchy, the client-side folder tree builder, item filtering, tag editing,
the save/delete handlers, and the row-level-security policies declared in the
SQL migrations.  All definitions are shallow embeddings of the TypeScript
component code and the SQL schema.
-/

/-- Client-side folder record, from the `PrepFolder` interface of the
Preparation page. -/
structure PrepFolder where
  id : String
  name : String
  parent_id : Option String
deriving DecidableEq, Repr

/-- Client-side item record, from the `PrepItem` interface of the
Preparation page. -/
structure PrepItem where
  id : String
  folder_id : String
  type : String
  title : String
  situation : String
  task : String
  action : String
  result : String
  content : String
  tags : List String
  updated_at : String
deriving DecidableEq, Repr

/-- Node of the rendered folder tree, from the `FolderTreeNode` interface
(`PrepFolder` plus `children` and `isExpanded`). -/
inductive FolderTreeNode where
  | mk : String → String → Option String → List FolderTreeNode → Bool → FolderTreeNode

/-- Identifier carried by a tree node. -/
def FolderTreeNode.id : FolderTreeNode → String
  | .mk i _ _ _ _ => i

/-- Name carried by a tree node. -/
def FolderTreeNode.name : FolderTreeNode → String
  | .mk _ n _ _ _ => n

/-- Parent reference carried by a tree node. -/
def FolderTreeNode.parent_id : FolderTreeNode → Option String
  | .mk _ _ p _ _ => p

/-- Children list of a tree node. -/
def FolderTreeNode.children : FolderTreeNode → List FolderTreeNode
  | .mk _ _ _ cs _ => cs

/-- Expanded flag of a tree node. -/
def FolderTreeNode.isExpanded : FolderTreeNode → Bool
  | .mk _ _ _ _ e => e

/-- The folder record a tree node was built from (a node spreads the folder's
own fields). -/
def FolderTreeNode.toFolder : FolderTreeNode → PrepFolder
  | .mk i n p _ _ => ⟨i, n, p⟩

/-- Helper of the tree builder: maps the filtered children list to nodes,
calling `sub` for each child's subtree.  `none` propagates fuel exhaustion
of a recursive call. -/
def buildNodes (expanded : List String) (sub : String → Option (List FolderTreeNode)) :
    List PrepFolder → Option (List FolderTreeNode)
  | [] => some []
  | f :: fs =>
    match sub f.id, buildNodes expanded sub fs with
    | some cs, some ns =>
        some (.mk f.id f.name f.parent_id cs (expanded.contains f.id) :: ns)
    | _, _ => none

/-- Fuelled embedding of `buildFolderTree` from the Preparation page:
`folders.filter(f => f.parent_id === parentId).map(folder => ({...folder,
children: buildFolderTree(folder.id), isExpanded: expandedFolders.has(folder.id)}))`.
The JavaScript recursion carries no fuel and hence diverges exactly when no
amount of fuel yields `some`. -/
def buildFolderTreeF (folders : List PrepFolder) (expanded : List String) :
    Nat → Option String → Option (List FolderTreeNode)
  | 0, _ => none
  | fuel + 1, parentId =>
      buildNodes expanded (fun i => buildFolderTreeF folders expanded fuel (some i))
        (folders.filter (fun f => f.parent_id == parentId))

/-- The tree builder as the component invokes it: at the null parent
(`const rootFolders = buildFolderTree(null)`), with enough fuel that, for
acyclic inputs, the result equals the JavaScript recursion's value. -/
def buildFolderTree (folders : List PrepFolder) (expanded : List String) :
    Option (List FolderTreeNode) :=
  buildFolderTreeF folders expanded (folders.length + 1) none

/-- All nodes of a forest, at every depth. -/
def allNodesF : List FolderTreeNode → List FolderTreeNode
  | [] => []
  | .mk i n p cs e :: rest => .mk i n p cs e :: (allNodesF cs ++ allNodesF rest)

/-- Edge relation of the folder hierarchy: `ChildRel folders f g` holds when
`g` is a direct child of `f` (its parent reference names `f`'s identifier),
both drawn from the collection. -/
def ChildRel (folders : List PrepFolder) (f g : PrepFolder) : Prop :=
  f ∈ folders ∧ g ∈ folders ∧ g.parent_id = some f.id

/-- A folder collection has no parent-reference cycles: no folder is a strict
descendant of itself. -/
def Acyclic (folders : List PrepFolder) : Prop :=
  ∀ f, ¬ Relation.TransGen (ChildRel folders) f f

/-- Every non-null parent reference names the identifier of some folder in the
collection. -/
def ParentsResolve (folders : List PrepFolder) : Prop :=
  ∀ f ∈ folders, ∀ q, f.parent_id = some q → ∃ g ∈ folders, g.id = q

/-- The identifiers of the collection are pairwise distinct (`id` is the
primary key of `prep_folders`). -/
def IdsNodup (folders : List PrepFolder) : Prop :=
  (folders.map PrepFolder.id).Nodup

/-- Descent paths of the recursion: `Descent folders pid path` holds when
`path` lists folders visited on one branch of `buildFolderTree pid`, each
element a child of the previous one (the first a child of `pid`). -/
inductive Descent (folders : List PrepFolder) : Option String → List PrepFolder → Prop
  | nil (pid : Option String) : Descent folders pid []
  | cons {pid : Option String} {f : PrepFolder} {path : List PrepFolder} :
      f ∈ folders → f.parent_id = pid → Descent folders (some f.id) path →
      Descent folders pid (f :: path)

/-- Reachability of a folder from a requested parent value: `g` appears
somewhere in the subtree the builder grows from `pid`. -/
inductive DescFrom (folders : List PrepFolder) : Option String → PrepFolder → Prop
  | base {pid : Option String} {f : PrepFolder} :
      f ∈ folders → f.parent_id = pid → DescFrom folders pid f
  | step {pid : Option String} {f g : PrepFolder} :
      f ∈ folders → f.parent_id = pid → DescFrom folders (some f.id) g →
      DescFrom folders pid g

/-- What one entry of a successful `buildNodes` run looks like. -/
def NodeOf (expanded : List String) (sub : String → Option (List FolderTreeNode))
    (f : PrepFolder) (nd : FolderTreeNode) : Prop :=
  ∃ cs, sub f.id = some cs ∧ nd = .mk f.id f.name f.parent_id cs (expanded.contains f.id)

/-- Executable check for `ParentsResolve`. -/
def parentsResolveB (folders : List PrepFolder) : Bool :=
  folders.all (fun f =>
    match f.parent_id with
    | none => true
    | some q => folders.any (fun g => g.id == q))

/-- A small concrete acyclic collection: one root with two children. -/
def demoFolders : List PrepFolder :=
  [⟨"a", "Root", none⟩, ⟨"b", "Stories", some "a"⟩, ⟨"c", "Notes", some "a"⟩]

/-- Rank function witnessing that `demoFolders` is acyclic. -/
def demoRank (s : String) : Nat :=
  if s = "a" then 0 else 1

instance decIdsNodup (folders : List PrepFolder) : Decidable (IdsNodup folders) :=
  inferInstanceAs (Decidable ((folders.map PrepFolder.id).Nodup))

/-- A two-folder collection in which each folder's parent reference is the
other folder: folder `a`'s parent is its own descendant `b`. -/
def cyclicFolders : List PrepFolder :=
  [⟨"a", "A", some "b"⟩, ⟨"b", "B", some "a"⟩]

/-- Embedding of the content-pane filter of the Preparation page:
`items.filter(item => item.folder_id === selectedFolderId)` — a strict
equality against the selected folder identifier (`null` when no folder is
selected, matching no item). -/
def selectedFolderItems (items : List PrepItem) (selectedFolderId : Option String) :
    List PrepItem :=
  items.filter (fun item => some item.folder_id == selectedFolderId)

/-- One concrete item, sitting in folder `b` of `demoFolders`. -/
def demoItems : List PrepItem :=
  [⟨"x1", "b", "note", "scratch", "", "", "", "", "hello", [], "2025-11-21"⟩]

/-- Row of the `profiles` table (20251019152137 migration); `id` references
`auth.users` and is the owner column. -/
structure ProfileRow where
  id : String
  email : String
  full_name : String
  custom_columns : String
  theme : String
  created_at : String
  updated_at : String
deriving DecidableEq, Repr

/-- Row of the `jobs` table. -/
structure JobRow where
  id : String
  user_id : String
  role : String
  company : String
  status : String
  applied_date : String
  job_link : String
  notes : String
  custom_data : String
  created_at : String
  updated_at : String
deriving DecidableEq, Repr

/-- Row of the legacy `stories` table. -/
structure StoryRow where
  id : String
  user_id : String
  title : String
  situation : String
  task : String
  action : String
  result : String
  tags : List String
  created_at : String
  updated_at : String
deriving DecidableEq, Repr

/-- Row of the legacy `notes` table. -/
structure NoteRow where
  id : String
  user_id : String
  title : String
  content : String
  tags : List String
  created_at : String
  updated_at : String
deriving DecidableEq, Repr

/-- Row of the `prep_folders` table (20251121144833 migration). -/
structure PrepFolderRow where
  id : String
  user_id : String
  name : String
  parent_id : Option String
  created_at : String
  updated_at : String
deriving DecidableEq, Repr

/-- Row of the `prep_items` table. -/
structure PrepItemRow where
  id : String
  user_id : String
  folder_id : String
  type : String
  title : String
  situation : String
  task : String
  action : String
  result : String
  content : String
  tags : List String
  created_at : String
  updated_at : String
deriving DecidableEq, Repr

/-- USING clause of the profiles SELECT policy: `auth.uid() = id`. -/
def profilesSelectPolicy (uid : String) (r : ProfileRow) : Bool :=
  uid == r.id

/-- USING clause of the jobs SELECT policy: `auth.uid() = user_id`. -/
def jobsSelectPolicy (uid : String) (r : JobRow) : Bool :=
  uid == r.user_id

/-- USING clause of the stories SELECT policy: `auth.uid() = user_id`. -/
def storiesSelectPolicy (uid : String) (r : StoryRow) : Bool :=
  uid == r.user_id

/-- USING clause of the notes SELECT policy: `auth.uid() = user_id`. -/
def notesSelectPolicy (uid : String) (r : NoteRow) : Bool :=
  uid == r.user_id

/-- USING clause of the prep_folders SELECT policy: `auth.uid() = user_id`. -/
def prepFoldersSelectPolicy (uid : String) (r : PrepFolderRow) : Bool :=
  uid == r.user_id

/-- USING clause of the prep_items SELECT policy: `auth.uid() = user_id`. -/
def prepItemsSelectPolicy (uid : String) (r : PrepItemRow) : Bool :=
  uid == r.user_id

/-- Row-level security applied to a read: only rows whose policy accepts the
caller are returned. -/
def rlsSelect {α : Type} (policy : String → α → Bool) (uid : String)
    (rows : List α) : List α :=
  rows.filter (policy uid)

/-- A job row owned by user `bob`. -/
def demoJobRow : JobRow :=
  ⟨"j1", "bob", "SWE", "Acme", "Applied", "2025-10-19", "", "", "", "t0", "t0"⟩

/-- JavaScript's `String.prototype.trim`, modelled executably: drop leading
and trailing whitespace characters. -/
def jsTrim (s : String) : String :=
  String.mk (((s.data.dropWhile Char.isWhitespace).reverse.dropWhile
    Char.isWhitespace).reverse)

/-- Embedding of `handleAddTag` (identical in the Preparation page and in
Stories.tsx): trim the input; append only when the trimmed tag is non-empty
and not already present. -/
def handleAddTag (tagInput : String) (tags : List String) : List String :=
  let tag := jsTrim tagInput
  if tag ≠ "" ∧ tag ∉ tags then tags ++ [tag] else tags

/-- Embedding of `handleRemoveTag`: keep every tag different from the one
being removed. -/
def handleRemoveTag (tagToRemove : String) (tags : List String) : List String :=
  tags.filter (fun tag => tag != tagToRemove)

/-- Client-side job record, from the `Job` interface of the Dashboard. -/
structure Job where
  id : String
  role : String
  company : String
  status : String
  applied_date : String
  job_link : String
  notes : String
deriving DecidableEq, Repr

/-- The Dashboard's form data for a job application. -/
structure JobFormData where
  role : String
  company : String
  status : String
  applied_date : String
  job_link : String
  notes : String
deriving DecidableEq, Repr

/-- Outcome of the Dashboard submit handler: either a client-side validation
error (no storage call issued) or exactly one storage call. -/
inductive JobSubmitAction where
  | validationError : String → JobSubmitAction
  | updateCall : String → JobFormData → String → JobSubmitAction
  | insertCall : JobFormData → String → JobSubmitAction
deriving DecidableEq, Repr

/-- Embedding of `handleSubmit` from the Dashboard: reject when the trimmed
role or company is empty, otherwise update the edited job or insert a new
one. -/
def dashboardHandleSubmit (editingJob : Option Job) (formData : JobFormData)
    (uid : String) (now : String) : JobSubmitAction :=
  if jsTrim formData.role = "" ∨ jsTrim formData.company = "" then
    .validationError "Role and Company are required"
  else
    match editingJob with
    | some job => .updateCall job.id formData now
    | none => .insertCall formData uid

/-- Effect of a submit outcome on the stored jobs collection.  A validation
error issues no storage call; an update rewrites the named row's form
fields; an insert appends a fresh row. -/
def applyJobSubmit (db : List JobRow) (freshId : String) :
    JobSubmitAction → List JobRow
  | .validationError _ => db
  | .updateCall id fd now =>
      db.map (fun r =>
        if r.id == id then
          { r with
            role := fd.role, company := fd.company, status := fd.status,
            applied_date := fd.applied_date, job_link := fd.job_link,
            notes := fd.notes, updated_at := now }
        else r)
  | .insertCall fd uid =>
      db ++ [⟨freshId, uid, fd.role, fd.company, fd.status, fd.applied_date,
        fd.job_link, fd.notes, "", "", ""⟩]

/-- The two modal modes from which `handleSaveItem` can run
(`handleOpenItemModal` only accepts these two). -/
inductive ItemKind where
  | story
  | note
deriving DecidableEq, Repr

/-- The string the component stores in the `type` column for a kind. -/
def ItemKind.toType : ItemKind → String
  | .story => "story"
  | .note => "note"

/-- CHECK constraint on `prep_items.type`: `type IN ('story', 'note')`. -/
def prepItemTypeCheck (t : String) : Bool :=
  t == "story" || t == "note"

/-- The Preparation page's item form data (`formData`): title, STAR fields,
content and tags — it carries no `type` and no `folder_id`. -/
structure ItemFormData where
  title : String
  situation : String
  task : String
  action : String
  result : String
  content : String
  tags : List String
deriving DecidableEq, Repr

/-- The update issued by `handleSaveItem` for an edited item:
`{...formData, updated_at}` — it sets exactly the form fields and the
timestamp, so the row's `type` and `folder_id` columns are not in the
payload and keep their stored values. -/
def applyPrepItemUpdate (row : PrepItemRow) (fd : ItemFormData) (now : String) :
    PrepItemRow :=
  { row with
    title := fd.title, situation := fd.situation, task := fd.task,
    action := fd.action, result := fd.result, content := fd.content,
    tags := fd.tags, updated_at := now }

/-- The row inserted by `handleSaveItem` for a new item:
`{user_id, folder_id: selectedFolderId, type: modalMode, ...formData}`. -/
def insertPrepItemRow (freshId uid folderId : String) (mode : ItemKind)
    (fd : ItemFormData) (now : String) : PrepItemRow :=
  ⟨freshId, uid, folderId, mode.toType, fd.title, fd.situation, fd.task,
    fd.action, fd.result, fd.content, fd.tags, now, now⟩

/-- Insert payload of a folder save, from `handleSaveFolder`'s create branch
and from `createRootFolder`. -/
structure FolderInsertPayload where
  user_id : String
  name : String
  parent_id : Option String
deriving DecidableEq, Repr

/-- The row `handleSaveFolder` inserts when creating a folder:
`{user_id, name: folderName, parent_id: selectedFolderId}`. -/
def handleSaveFolderInsertPayload (uid folderName : String)
    (selectedFolderId : Option String) : FolderInsertPayload :=
  ⟨uid, folderName, selectedFolderId⟩

/-- The row the empty-state `createRootFolder` action inserts:
`{user_id, name: 'Root', parent_id: null}`. -/
def createRootFolderPayload (uid : String) : FolderInsertPayload :=
  ⟨uid, "Root", none⟩

/-- Client-side state of the Preparation page that the handlers can touch:
the fetched folder and item collections and the selection. -/
structure PrepState where
  folders : List PrepFolder
  items : List PrepItem
  selectedFolderId : Option String
deriving DecidableEq, Repr

/-- Embedding of `handleSaveFolder`.  The storage call's outcome is the
`res` parameter (on the rename path only its error/success matters; on the
create path `.ok` carries the row the insert returned).  The second
component is the toast message, `some` on validation or storage failure.
On success the component also closes the modal and refetches — refetching
is `fetchDataClient`. -/
def handleSaveFolder (st : PrepState) (editingFolder : Option PrepFolder)
    (folderName : String) (res : Except String PrepFolder) :
    PrepState × Option String :=
  if jsTrim folderName = "" then (st, some "Folder name is required")
  else
    match editingFolder with
    | some ef =>
      match res with
      | .error e => (st, some e)
      | .ok _ =>
          ({ st with
             folders := st.folders.map (fun f =>
               if f.id == ef.id then { f with name := folderName } else f) },
            none)
    | none =>
      match res with
      | .error e => (st, some e)
      | .ok data => ({ st with folders := st.folders ++ [data] }, none)

/-- Embedding of `handleSaveItem`: title validation, selection check, then
the update or insert call; the component's collections are only refreshed by
the subsequent fetch, so on success the state is returned unchanged here. -/
def handleSaveItem (st : PrepState) (title : String)
    (res : Except String Unit) : PrepState × Option String :=
  if jsTrim title = "" then (st, some "Title is required")
  else
    match st.selectedFolderId with
    | none => (st, some "Please select a folder")
    | some _ =>
      match res with
      | .error e => (st, some e)
      | .ok _ => (st, none)

/-- Embedding of `handleDeleteFolder`'s client side: confirmation gate, one
delete-by-identifier call, and on success only the selection is cleared
(when it pointed at the deleted folder) before the refetch. -/
def handleDeleteFolderClient (st : PrepState) (id : String) (confirmed : Bool)
    (res : Except String Unit) : PrepState × Option String :=
  if !confirmed then (st, none)
  else
    match res with
    | .error _ => (st, some "Failed to delete folder")
    | .ok _ =>
        ({ st with
           selectedFolderId :=
             if st.selectedFolderId == some id then none
             else st.selectedFolderId },
          none)

/-- Embedding of `handleDeleteItem`'s client side. -/
def handleDeleteItemClient (st : PrepState) (id : String) (confirmed : Bool)
    (res : Except String Unit) : PrepState × Option String :=
  if !confirmed then (st, none)
  else
    match res with
    | .error _ => (st, some "Failed to delete item")
    | .ok _ => (st, none)

/-- Embedding of `fetchData`: on success replace both collections and select
a first root folder when nothing was selected; on failure only a toast. -/
def fetchDataClient (st : PrepState)
    (res : Except String (List PrepFolder × List PrepItem)) :
    PrepState × Option String :=
  match res with
  | .error _ => (st, some "Failed to fetch data")
  | .ok (fs, its) =>
      ({ folders := fs, items := its,
         selectedFolderId :=
           match st.selectedFolderId with
           | some x => some x
           | none =>
             match fs.find? (fun f => f.parent_id.isNone) with
             | some r => some r.id
             | none => none },
        none)

/-- Child step at the identifier level: `y` is the identifier of a folder of
the collection whose parent reference is `x`. -/
def IdChild (folders : List PrepFolder) (x y : String) : Prop :=
  ∃ f ∈ folders, f.id = y ∧ f.parent_id = some x

/-- An identifier lies in the (reflexive, transitive) subtree of `fid`. -/
def InSubtree (folders : List PrepFolder) (fid x : String) : Prop :=
  Relation.ReflTransGen (IdChild folders) fid x

/-- One round of the `ON DELETE CASCADE` propagation declared on
`prep_folders.parent_id`: any folder whose parent identifier has been
removed is removed too. -/
def cascadeStep (folders : List PrepFolder) (removed : List String) : List String :=
  removed ++ (folders.filter (fun f =>
    match f.parent_id with
    | some q => removed.contains q && !(removed.contains f.id)
    | none => false)).map PrepFolder.id

/-- The cascade propagation iterated `k` rounds. -/
def iterateCascade (folders : List PrepFolder) : Nat → List String → List String
  | 0, removed => removed
  | k + 1, removed => cascadeStep folders (iterateCascade folders k removed)

/-- Identifiers of all folders removed when folder `fid` is deleted:
`folders.length` cascade rounds reach the fixpoint on acyclic data. -/
def removedFolderIds (folders : List PrepFolder) (fid : String) : List String :=
  iterateCascade folders folders.length [fid]

/-- The storage layer's effect of `DELETE FROM prep_folders WHERE id = fid`:
the targeted folder and, by `ON DELETE CASCADE` on `prep_folders.parent_id`,
its whole subtree disappear, and by `ON DELETE CASCADE` on
`prep_items.folder_id` every item within any removed folder disappears. -/
def storageDeleteFolder (folders : List PrepFolder) (items : List PrepItem)
    (fid : String) : List PrepFolder × List PrepItem :=
  (folders.filter (fun f => !((removedFolderIds folders fid).contains f.id)),
    items.filter (fun it => !((removedFolderIds folders fid).contains it.folder_id)))

/-- The single storage call `handleDeleteFolder` issues after confirmation:
`supabase.from('prep_folders').delete().eq('id', id)` — one
delete-by-identifier; all subtree and item removal is the storage cascade,
no application code iterates the subtree. -/
def handleDeleteFolderCall (folders : List PrepFolder) (items : List PrepItem)
    (fid : String) : List PrepFolder × List PrepItem :=
  storageDeleteFolder folders items fid

/-- Identifier chains: `IdPath folders x ys` means `ys` lists identifiers
reached from `x` by consecutive child steps. -/
inductive IdPath (folders : List PrepFolder) : String → List String → Prop
  | nil (x : String) : IdPath folders x []
  | cons {x y : String} {ys : List String} :
      IdChild folders x y → IdPath folders y ys → IdPath folders x (y :: ys)

theorem buildNodes_forall₂ {expanded : List String}
    {sub : String → Option (List FolderTreeNode)} :
    ∀ {l : List PrepFolder} {ns : List FolderTreeNode},
      buildNodes expanded sub l = some ns → List.Forall₂ (NodeOf expanded sub) l ns := by
  intro l
  induction l with
  | nil =>
    intro ns h
    simp only [buildNodes] at h
    cases h
    exact List.Forall₂.nil
  | cons f fs ih =>
    intro ns h
    simp only [buildNodes] at h
    cases hc : sub f.id with
    | none => rw [hc] at h; exact absurd h (by simp)
    | some cs =>
      cases hr : buildNodes expanded sub fs with
      | none => rw [hc, hr] at h; exact absurd h (by simp)
      | some ms =>
        rw [hc, hr] at h
        simp only [Option.some.injEq] at h
        subst h
        exact List.Forall₂.cons ⟨cs, hc, rfl⟩ (ih hr)

theorem buildNodes_isSome {expanded : List String}
    {sub : String → Option (List FolderTreeNode)} :
    ∀ {l : List PrepFolder}, (∀ f ∈ l, (sub f.id).isSome) →
      (buildNodes expanded sub l).isSome := by
  intro l
  induction l with
  | nil => intro _; simp [buildNodes]
  | cons f fs ih =>
    intro h
    have h1 : (sub f.id).isSome := h f (List.mem_cons_self f fs)
    have h2 := ih (fun g hg => h g (List.mem_cons_of_mem f hg))
    simp only [buildNodes]
    cases hc : sub f.id with
    | none => rw [hc] at h1; exact absurd h1 (by simp)
    | some cs =>
      cases hr : buildNodes expanded sub fs with
      | none => rw [hr] at h2; exact absurd h2 (by simp)
      | some ms => simp

theorem forall₂_map_toFolder {expanded : List String}
    {sub : String → Option (List FolderTreeNode)} :
    ∀ {l : List PrepFolder} {ns : List FolderTreeNode},
      List.Forall₂ (NodeOf expanded sub) l ns →
      ns.map FolderTreeNode.toFolder = l := by
  intro l ns h
  induction h with
  | nil => rfl
  | cons hfd _ ih =>
    obtain ⟨cs, _, hnd⟩ := hfd
    subst hnd
    simp only [List.map_cons, ih, FolderTreeNode.toFolder]

theorem mem_filter_parent {folders : List PrepFolder} {pid : Option String}
    {f : PrepFolder} :
    f ∈ folders.filter (fun g => g.parent_id == pid) ↔
      f ∈ folders ∧ f.parent_id = pid := by
  simp [List.mem_filter]

theorem descent_subset {folders : List PrepFolder} {pid : Option String}
    {path : List PrepFolder} (h : Descent folders pid path) : path ⊆ folders := by
  induction h with
  | nil => exact List.nil_subset _
  | cons hf _ _ ih => exact List.cons_subset.mpr ⟨hf, ih⟩

theorem descent_transGen {folders : List PrepFolder} {f : PrepFolder}
    {path : List PrepFolder} (hf : f ∈ folders)
    (h : Descent folders (some f.id) path) :
    ∀ g ∈ path, Relation.TransGen (ChildRel folders) f g := by
  revert f
  induction path with
  | nil => intro f _ _ g hg; exact absurd hg (List.not_mem_nil g)
  | cons x xs ih =>
    intro f hf h g hg
    cases h with
    | cons hx hpx hrest =>
      rcases List.mem_cons.mp hg with hgx | hgs
      · subst hgx
        exact Relation.TransGen.single ⟨hf, hx, hpx⟩
      · exact Relation.TransGen.head ⟨hf, hx, hpx⟩ (ih hx hrest g hgs)

theorem descent_nodup {folders : List PrepFolder} (hac : Acyclic folders) :
    ∀ {pid : Option String} {path : List PrepFolder},
      Descent folders pid path → path.Nodup := by
  intro pid path h
  induction h with
  | nil => exact List.nodup_nil
  | cons hf _ hrest ih =>
    refine List.nodup_cons.mpr ⟨fun hmem => ?_, ih⟩
    exact hac _ (descent_transGen hf hrest _ hmem)

theorem descent_length_le {folders : List PrepFolder} (hac : Acyclic folders)
    {pid : Option String} {path : List PrepFolder} (h : Descent folders pid path) :
    path.length ≤ folders.length :=
  ((descent_nodup hac h).subperm (descent_subset h)).length_le

theorem buildFolderTreeF_isSome_of_descent_lt {folders : List PrepFolder}
    {expanded : List String} :
    ∀ {fuel : Nat} {pid : Option String},
      (∀ path, Descent folders pid path → path.length < fuel) →
      (buildFolderTreeF folders expanded fuel pid).isSome := by
  intro fuel
  induction fuel with
  | zero =>
    intro pid h
    exact absurd (h [] (Descent.nil pid)) (by simp)
  | succ fuel ih =>
    intro pid h
    simp only [buildFolderTreeF]
    apply buildNodes_isSome
    intro f hf
    rcases mem_filter_parent.mp hf with ⟨hmem, hpar⟩
    apply ih
    intro path hpath
    have := h (f :: path) (Descent.cons hmem hpar hpath)
    simpa [Nat.succ_lt_succ_iff] using this

theorem buildFolderTreeF_isSome_of_acyclic {folders : List PrepFolder}
    {expanded : List String} (hac : Acyclic folders) (pid : Option String) :
    (buildFolderTreeF folders expanded (folders.length + 1) pid).isSome := by
  apply buildFolderTreeF_isSome_of_descent_lt
  intro path hpath
  exact Nat.lt_succ_of_le (descent_length_le hac hpath)

theorem allNodesF_cons (m : FolderTreeNode) (rest : List FolderTreeNode) :
    allNodesF (m :: rest) = m :: (allNodesF m.children ++ allNodesF rest) := by
  cases m with
  | mk i n p cs e => simp [allNodesF, FolderTreeNode.children]

theorem mem_allNodesF {nd : FolderTreeNode} :
    ∀ {ns : List FolderTreeNode},
      nd ∈ allNodesF ns ↔ ∃ m ∈ ns, nd = m ∨ nd ∈ allNodesF m.children := by
  intro ns
  induction ns with
  | nil => simp [allNodesF]
  | cons m rest ih =>
    rw [allNodesF_cons]
    simp only [List.mem_cons, List.mem_append, ih]
    constructor
    · rintro (h | h | ⟨m', hm', h'⟩)
      · exact ⟨m, Or.inl rfl, Or.inl h⟩
      · exact ⟨m, Or.inl rfl, Or.inr h⟩
      · exact ⟨m', Or.inr hm', h'⟩
    · rintro ⟨m', hm' | hm', h'⟩
      · subst hm'
        rcases h' with h' | h'
        · exact Or.inl h'
        · exact Or.inr (Or.inl h')
      · exact Or.inr (Or.inr ⟨m', hm', h'⟩)

theorem forall₂_mem_right {α β : Type} {R : α → β → Prop} :
    ∀ {l : List α} {ns : List β}, List.Forall₂ R l ns → ∀ {m : β}, m ∈ ns →
      ∃ f ∈ l, R f m := by
  intro l ns h
  induction h with
  | nil => intro m hm; exact absurd hm (List.not_mem_nil m)
  | cons hR _ ih =>
    intro m hm
    rcases List.mem_cons.mp hm with hm | hm
    · subst hm; exact ⟨_, List.mem_cons_self _ _, hR⟩
    · obtain ⟨f, hf, hRf⟩ := ih hm
      exact ⟨f, List.mem_cons_of_mem _ hf, hRf⟩

theorem forall₂_mem_left {α β : Type} {R : α → β → Prop} :
    ∀ {l : List α} {ns : List β}, List.Forall₂ R l ns → ∀ {f : α}, f ∈ l →
      ∃ m ∈ ns, R f m := by
  intro l ns h
  induction h with
  | nil => intro f hf; exact absurd hf (List.not_mem_nil f)
  | cons hR _ ih =>
    intro f hf
    rcases List.mem_cons.mp hf with hf | hf
    · subst hf; exact ⟨_, List.mem_cons_self _ _, hR⟩
    · obtain ⟨m, hm, hRm⟩ := ih hf
      exact ⟨m, List.mem_cons_of_mem _ hm, hRm⟩

theorem buildFolderTreeF_map_toFolder {folders : List PrepFolder}
    {expanded : List String} {fuel : Nat} {pid : Option String}
    {ts : List FolderTreeNode}
    (h : buildFolderTreeF folders expanded fuel pid = some ts) :
    ts.map FolderTreeNode.toFolder = folders.filter (fun g => g.parent_id == pid) := by
  cases fuel with
  | zero => exact absurd h (by simp [buildFolderTreeF])
  | succ fuel =>
    simp only [buildFolderTreeF] at h
    exact forall₂_map_toFolder (buildNodes_forall₂ h)

theorem buildFolderTreeF_allNodes_children {folders : List PrepFolder}
    {expanded : List String} :
    ∀ {fuel : Nat} {pid : Option String} {ts : List FolderTreeNode},
      buildFolderTreeF folders expanded fuel pid = some ts →
      ∀ nd ∈ allNodesF ts,
        nd.children.map FolderTreeNode.toFolder
          = folders.filter (fun g => g.parent_id == some nd.id) := by
  intro fuel
  induction fuel with
  | zero => intro pid ts h; exact absurd h (by simp [buildFolderTreeF])
  | succ fuel ih =>
    intro pid ts h nd hnd
    simp only [buildFolderTreeF] at h
    obtain ⟨m, hm, hcase⟩ := mem_allNodesF.mp hnd
    obtain ⟨f, _, cs, hsub, hmk⟩ := forall₂_mem_right (buildNodes_forall₂ h) hm
    rcases hcase with hcase | hcase
    · subst hcase hmk
      simpa [FolderTreeNode.children, FolderTreeNode.id] using
        buildFolderTreeF_map_toFolder hsub
    · subst hmk
      exact ih hsub nd (by simpa [FolderTreeNode.children] using hcase)

theorem buildFolderTreeF_allNodes_descFrom {folders : List PrepFolder}
    {expanded : List String} :
    ∀ {fuel : Nat} {pid : Option String} {ts : List FolderTreeNode},
      buildFolderTreeF folders expanded fuel pid = some ts →
      ∀ nd ∈ allNodesF ts, DescFrom folders pid nd.toFolder := by
  intro fuel
  induction fuel with
  | zero => intro pid ts h; exact absurd h (by simp [buildFolderTreeF])
  | succ fuel ih =>
    intro pid ts h nd hnd
    simp only [buildFolderTreeF] at h
    obtain ⟨m, hm, hcase⟩ := mem_allNodesF.mp hnd
    obtain ⟨f, hf, cs, hsub, hmk⟩ := forall₂_mem_right (buildNodes_forall₂ h) hm
    rcases mem_filter_parent.mp hf with ⟨hfm, hfp⟩
    rcases hcase with hcase | hcase
    · subst hcase hmk
      exact DescFrom.base hfm hfp
    · subst hmk
      have hsub' : DescFrom folders (some f.id) nd.toFolder :=
        ih hsub nd (by simpa [FolderTreeNode.children] using hcase)
      exact DescFrom.step hfm hfp hsub'

theorem descFrom_mem_allNodes {folders : List PrepFolder}
    {expanded : List String} :
    ∀ {pid : Option String} {g : PrepFolder}, DescFrom folders pid g →
      ∀ {fuel : Nat} {ts : List FolderTreeNode},
        buildFolderTreeF folders expanded fuel pid = some ts →
        g ∈ (allNodesF ts).map FolderTreeNode.toFolder := by
  intro pid g hdesc
  induction hdesc with
  | base hmem hpar =>
    intro fuel ts h
    cases fuel with
    | zero => exact absurd h (by simp [buildFolderTreeF])
    | succ fuel =>
      simp only [buildFolderTreeF] at h
      obtain ⟨m, hm, cs, _, hmk⟩ :=
        forall₂_mem_left (buildNodes_forall₂ h) (mem_filter_parent.mpr ⟨hmem, hpar⟩)
      refine List.mem_map.mpr ⟨m, mem_allNodesF.mpr ⟨m, hm, Or.inl rfl⟩, ?_⟩
      subst hmk
      rfl
  | step hmem hpar _ ih =>
    intro fuel ts h
    cases fuel with
    | zero => exact absurd h (by simp [buildFolderTreeF])
    | succ fuel =>
      simp only [buildFolderTreeF] at h
      obtain ⟨m, hm, cs, hsub, hmk⟩ :=
        forall₂_mem_left (buildNodes_forall₂ h) (mem_filter_parent.mpr ⟨hmem, hpar⟩)
      obtain ⟨nd, hnd, hndg⟩ := List.mem_map.mp (ih hsub)
      refine List.mem_map.mpr ⟨nd, ?_, hndg⟩
      refine mem_allNodesF.mpr ⟨m, hm, Or.inr ?_⟩
      subst hmk
      simpa [FolderTreeNode.children] using hnd

theorem eq_of_id_eq {folders : List PrepFolder} (hn : IdsNodup folders)
    {f g : PrepFolder} (hf : f ∈ folders) (hg : g ∈ folders)
    (h : f.id = g.id) : f = g :=
  List.inj_on_of_nodup_map hn hf hg h

theorem descFrom_transGen_aux {folders : List PrepFolder} :
    ∀ {pid : Option String} {g : PrepFolder}, DescFrom folders pid g →
      ∀ {a : PrepFolder}, a ∈ folders → pid = some a.id →
        Relation.TransGen (ChildRel folders) a g := by
  intro pid g h
  induction h with
  | base hmem hpar =>
    intro a ha hpid
    exact Relation.TransGen.single ⟨ha, hmem, hpar.trans hpid⟩
  | step hmem hpar _ ih =>
    intro a ha hpid
    exact Relation.TransGen.head ⟨ha, hmem, hpar.trans hpid⟩ (ih hmem rfl)

theorem descFrom_transGen {folders : List PrepFolder} {a : PrepFolder}
    (ha : a ∈ folders) {g : PrepFolder}
    (h : DescFrom folders (some a.id) g) :
    Relation.TransGen (ChildRel folders) a g :=
  descFrom_transGen_aux h ha rfl

theorem childRel_bdet {folders : List PrepFolder} (hn : IdsNodup folders) :
    ∀ u v x : PrepFolder, ChildRel folders u x → ChildRel folders v x → u = v := by
  intro u v x hu hv
  obtain ⟨hum, _, hux⟩ := hu
  obtain ⟨hvm, _, hvx⟩ := hv
  apply eq_of_id_eq hn hum hvm
  exact Option.some.inj (hux.symm.trans hvx)

theorem rtg_comparable {α : Type} {r : α → α → Prop}
    (bdet : ∀ u v x : α, r u x → r v x → u = v) {a y : α}
    (hay : Relation.ReflTransGen r a y) :
    ∀ {b : α}, Relation.ReflTransGen r b y →
      Relation.ReflTransGen r a b ∨ Relation.ReflTransGen r b a := by
  induction hay with
  | refl => intro b hb; exact Or.inr hb
  | tail h1 h2 ih =>
    intro b hb
    rcases Relation.ReflTransGen.cases_tail hb with hb' | ⟨c, hbc, hcy⟩
    · subst hb'
      exact Or.inl (Relation.ReflTransGen.tail h1 h2)
    · have hc := bdet c _ _ hcy h2
      subst hc
      exact ih hbc

theorem not_transGen_of_parent_eq {folders : List PrepFolder}
    (hac : Acyclic folders) {a b : PrepFolder} (ha : a ∈ folders)
    (hpar : a.parent_id = b.parent_id) :
    ¬ Relation.TransGen (ChildRel folders) a b := by
  intro h
  obtain ⟨w, hrtg, hw⟩ := Relation.TransGen.tail'_iff.mp h
  obtain ⟨hwm, _, hbw⟩ := hw
  have hwa : ChildRel folders w a := ⟨hwm, ha, hpar.trans hbw⟩
  exact hac w (Relation.TransGen.trans_left (Relation.TransGen.single hwa) hrtg)

theorem blocks_disjoint {folders : List PrepFolder} (hn : IdsNodup folders)
    (hac : Acyclic folders) {f1 f2 x : PrepFolder} {pid : Option String}
    (h1m : f1 ∈ folders) (h2m : f2 ∈ folders)
    (hp1 : f1.parent_id = pid) (hp2 : f2.parent_id = pid) (hne : f1 ≠ f2)
    (hx1 : x = f1 ∨ Relation.TransGen (ChildRel folders) f1 x)
    (hx2 : x = f2 ∨ Relation.TransGen (ChildRel folders) f2 x) : False := by
  have hpar : f1.parent_id = f2.parent_id := hp1.trans hp2.symm
  rcases hx1 with hx1 | hx1 <;> rcases hx2 with hx2 | hx2
  · exact hne (hx1.symm.trans hx2)
  · subst hx1
    exact not_transGen_of_parent_eq hac h2m hpar.symm hx2
  · subst hx2
    exact not_transGen_of_parent_eq hac h1m hpar hx1
  · obtain ⟨w1, hr1, hw1⟩ := Relation.TransGen.tail'_iff.mp hx1
    obtain ⟨w2, hr2, hw2⟩ := Relation.TransGen.tail'_iff.mp hx2
    have hw12 := childRel_bdet hn w1 w2 x hw1 hw2
    subst hw12
    rcases rtg_comparable (childRel_bdet hn) hr1 hr2 with hcomp | hcomp <;>
      rcases Relation.reflTransGen_iff_eq_or_transGen.mp hcomp with heq | htg
    · exact hne heq.symm
    · exact not_transGen_of_parent_eq hac h1m hpar htg
    · exact hne heq
    · exact not_transGen_of_parent_eq hac h2m hpar.symm htg

theorem toFolder_mk_eq (f : PrepFolder) (cs : List FolderTreeNode) (e : Bool) :
    FolderTreeNode.toFolder (.mk f.id f.name f.parent_id cs e) = f := rfl

theorem forall₂_allNodes_blocks {folders : List PrepFolder} {expanded : List String}
    {sub : String → Option (List FolderTreeNode)} :
    ∀ {l : List PrepFolder} {ns : List FolderTreeNode},
      List.Forall₂ (NodeOf expanded sub) l ns →
      (∀ f ∈ l, ∀ cs, sub f.id = some cs →
        ∀ g ∈ (allNodesF cs).map FolderTreeNode.toFolder,
          DescFrom folders (some f.id) g) →
      ∀ g ∈ (allNodesF ns).map FolderTreeNode.toFolder,
        ∃ f ∈ l, g = f ∨ DescFrom folders (some f.id) g := by
  intro l ns h
  induction h with
  | nil => intro _ g hg; simp [allNodesF] at hg
  | cons hR hF2 ih =>
    intro hsound g hg
    obtain ⟨cs, hsub, hmk⟩ := hR
    subst hmk
    rw [allNodesF_cons] at hg
    simp only [FolderTreeNode.children, List.map_cons, List.map_append,
      List.mem_cons, List.mem_append, toFolder_mk_eq] at hg
    rcases hg with hg | hg | hg
    · exact ⟨_, List.mem_cons_self _ _, Or.inl hg⟩
    · refine ⟨_, List.mem_cons_self _ _, Or.inr ?_⟩
      exact hsound _ (List.mem_cons_self _ _) cs hsub g hg
    · obtain ⟨f', hf', hcase⟩ :=
        ih (fun f hf => hsound f (List.mem_cons_of_mem _ hf)) g hg
      exact ⟨f', List.mem_cons_of_mem _ hf', hcase⟩

theorem blockOf_transGen {folders : List PrepFolder} {f g : PrepFolder}
    (hf : f ∈ folders) (h : g = f ∨ DescFrom folders (some f.id) g) :
    g = f ∨ Relation.TransGen (ChildRel folders) f g := by
  rcases h with h | h
  · exact Or.inl h
  · exact Or.inr (descFrom_transGen hf h)

theorem forall₂_allNodes_nodup {folders : List PrepFolder} {expanded : List String}
    {sub : String → Option (List FolderTreeNode)}
    (hn : IdsNodup folders) (hac : Acyclic folders) (pid : Option String) :
    ∀ {l : List PrepFolder} {ns : List FolderTreeNode},
      List.Forall₂ (NodeOf expanded sub) l ns → l.Nodup →
      (∀ f ∈ l, f ∈ folders ∧ f.parent_id = pid) →
      (∀ f ∈ l, ∀ cs, sub f.id = some cs →
        ((allNodesF cs).map FolderTreeNode.toFolder).Nodup ∧
        ∀ g ∈ (allNodesF cs).map FolderTreeNode.toFolder,
          DescFrom folders (some f.id) g) →
      ((allNodesF ns).map FolderTreeNode.toFolder).Nodup := by
  intro l ns h
  induction h with
  | nil => intro _ _ _; simp [allNodesF]
  | cons hR hF2 ih =>
    intro hnd hmemp hsub
    obtain ⟨cs, hcs, hmk⟩ := hR
    rename_i f m' l' ns'
    subst hmk
    have hfl : f ∈ folders ∧ f.parent_id = pid := hmemp f (List.mem_cons_self _ _)
    have hfA := hsub f (List.mem_cons_self _ _) cs hcs
    have hl'nd : l'.Nodup := (List.nodup_cons.mp hnd).2
    have hfnotl' : f ∉ l' := (List.nodup_cons.mp hnd).1
    have hB := ih hl'nd (fun g hg => hmemp g (List.mem_cons_of_mem _ hg))
      (fun g hg => hsub g (List.mem_cons_of_mem _ hg))
    have hBblocks := forall₂_allNodes_blocks hF2
      (fun g hg cs' hcs' x hx => (hsub g (List.mem_cons_of_mem _ hg) cs' hcs').2 x hx)
    rw [allNodesF_cons]
    simp only [FolderTreeNode.children, List.map_cons, List.map_append, toFolder_mk_eq]
    refine List.nodup_cons.mpr ⟨?_, List.nodup_append.mpr ⟨hfA.1, hB, ?_⟩⟩
    · intro hmem
      rcases List.mem_append.mp hmem with hmem | hmem
      · exact hac f (descFrom_transGen hfl.1 (hfA.2 f hmem))
      · obtain ⟨f', hf', hcase⟩ := hBblocks f hmem
        have hf'l : f' ∈ folders ∧ f'.parent_id = pid :=
          hmemp f' (List.mem_cons_of_mem _ hf')
        exact blocks_disjoint hn hac hfl.1 hf'l.1 hfl.2 hf'l.2
          (fun he => hfnotl' (he ▸ hf')) (Or.inl rfl)
          (blockOf_transGen hf'l.1 hcase)
    · intro x hxA hxB
      obtain ⟨f', hf', hcase⟩ := hBblocks x hxB
      have hf'l : f' ∈ folders ∧ f'.parent_id = pid :=
        hmemp f' (List.mem_cons_of_mem _ hf')
      exact blocks_disjoint hn hac hfl.1 hf'l.1 hfl.2 hf'l.2
        (fun he => hfnotl' (he ▸ hf'))
        (Or.inr (descFrom_transGen hfl.1 (hfA.2 x hxA)))
        (blockOf_transGen hf'l.1 hcase)

theorem buildFolderTreeF_allNodes_nodup {folders : List PrepFolder}
    {expanded : List String} (hn : IdsNodup folders) (hac : Acyclic folders) :
    ∀ {fuel : Nat} {pid : Option String} {ts : List FolderTreeNode},
      buildFolderTreeF folders expanded fuel pid = some ts →
      ((allNodesF ts).map FolderTreeNode.toFolder).Nodup := by
  intro fuel
  induction fuel with
  | zero => intro pid ts h; exact absurd h (by simp [buildFolderTreeF])
  | succ fuel ih =>
    intro pid ts h
    simp only [buildFolderTreeF] at h
    refine forall₂_allNodes_nodup hn hac pid (buildNodes_forall₂ h) ?_ ?_ ?_
    · exact (hn.of_map).filter _
    · intro f hf; exact mem_filter_parent.mp hf
    · intro f _ cs hcs
      exact ⟨ih hcs, fun g hg => by
        obtain ⟨nd, hnd, hndg⟩ := List.mem_map.mp hg
        exact hndg ▸ buildFolderTreeF_allNodes_descFrom hcs nd hnd⟩

theorem descFrom_mem_folders {folders : List PrepFolder} :
    ∀ {pid : Option String} {g : PrepFolder}, DescFrom folders pid g → g ∈ folders := by
  intro pid g h
  induction h with
  | base hmem _ => exact hmem
  | step _ _ _ ih => exact ih

theorem descFrom_extend {folders : List PrepFolder} :
    ∀ {pid : Option String} {g : PrepFolder}, DescFrom folders pid g →
      ∀ {f : PrepFolder}, f ∈ folders → f.parent_id = some g.id →
        DescFrom folders pid f := by
  intro pid g h
  induction h with
  | base hmem hpar =>
    intro f hf hfp
    exact DescFrom.step hmem hpar (DescFrom.base hf hfp)
  | step hmem hpar _ ih =>
    intro f hf hfp
    exact DescFrom.step hmem hpar (ih hf hfp)

theorem descent_snoc {folders : List PrepFolder} :
    ∀ {pid : Option String} {path : List PrepFolder}, Descent folders pid path →
      ∀ {g f : PrepFolder}, path.getLast? = some g → f ∈ folders →
        f.parent_id = some g.id → Descent folders pid (path ++ [f]) := by
  intro pid path h
  induction h with
  | nil => intro g f hlast _ _; simp at hlast
  | cons hx hpx hrest ih =>
    rename_i pid' x path'
    intro g f hlast hf hfp
    cases path' with
    | nil =>
      have hg : g = x := by simpa using hlast.symm
      subst hg
      exact Descent.cons hx hpx (Descent.cons hf hfp (Descent.nil _))
    | cons y ys =>
      have hlast' : (y :: ys).getLast? = some g := by
        rwa [List.getLast?_cons_cons] at hlast
      exact Descent.cons hx hpx (ih hlast' hf hfp)

theorem all_descFrom_none {folders : List PrepFolder}
    (hres : ParentsResolve folders) (hac : Acyclic folders) :
    ∀ f ∈ folders, DescFrom folders none f := by
  have bad_step : ∀ f, f ∈ folders → ¬ DescFrom folders none f →
      ∃ g, g ∈ folders ∧ f.parent_id = some g.id ∧ ¬ DescFrom folders none g := by
    intro f hf hbad
    cases hp : f.parent_id with
    | none => exact absurd (DescFrom.base hf hp) hbad
    | some q =>
      obtain ⟨g, hg, hgq⟩ := hres f hf q hp
      refine ⟨g, hg, congrArg some hgq.symm, fun hdg => ?_⟩
      exact hbad (descFrom_extend hdg hf (hp.trans (congrArg some hgq.symm)))
  have chains : ∀ k : Nat, ∀ f, f ∈ folders → ¬ DescFrom folders none f →
      ∃ pid path, Descent folders pid path ∧ path.length = k + 1 ∧
        path.getLast? = some f := by
    intro k
    induction k with
    | zero =>
      intro f hf _
      exact ⟨f.parent_id, [f], Descent.cons hf rfl (Descent.nil _), rfl, rfl⟩
    | succ k ih =>
      intro f hf hbad
      obtain ⟨g, hg, hfp, hgbad⟩ := bad_step f hf hbad
      obtain ⟨pid, path, hd, hlen, hlast⟩ := ih g hg hgbad
      refine ⟨pid, path ++ [f], descent_snoc hd hlast hf hfp, ?_, ?_⟩
      · simp [hlen]
      · simp
  intro f hf
  by_contra hbad
  obtain ⟨pid, path, hd, hlen, _⟩ := chains folders.length f hf hbad
  have := descent_length_le hac hd
  omega

theorem buildFolderTree_count {folders : List PrepFolder} {expanded : List String}
    {ts : List FolderTreeNode} (hn : IdsNodup folders)
    (hres : ParentsResolve folders) (hac : Acyclic folders)
    (h : buildFolderTree folders expanded = some ts) :
    (allNodesF ts).length = folders.length := by
  have h' : buildFolderTreeF folders expanded (folders.length + 1) none = some ts := h
  have hsub : (allNodesF ts).map FolderTreeNode.toFolder ⊆ folders := by
    intro g hg
    obtain ⟨nd, hnd, hndg⟩ := List.mem_map.mp hg
    exact hndg ▸ descFrom_mem_folders (buildFolderTreeF_allNodes_descFrom h' nd hnd)
  have hnodup := buildFolderTreeF_allNodes_nodup hn hac h'
  have h1 : ((allNodesF ts).map FolderTreeNode.toFolder).length ≤ folders.length :=
    (hnodup.subperm hsub).length_le
  have hsub2 : folders ⊆ (allNodesF ts).map FolderTreeNode.toFolder := by
    intro f hf
    exact descFrom_mem_allNodes (all_descFrom_none hres hac f hf) h'
  have h2 : folders.length ≤ ((allNodesF ts).map FolderTreeNode.toFolder).length :=
    ((hn.of_map).subperm hsub2).length_le
  have hlen : ((allNodesF ts).map FolderTreeNode.toFolder).length = (allNodesF ts).length :=
    List.length_map _ _
  omega

/-- Acyclicity follows from any rank function that strictly increases along
the parent-to-child edges. -/
theorem acyclic_of_rank {folders : List PrepFolder} (rank : String → Nat)
    (h : ∀ f ∈ folders, ∀ g ∈ folders, g.parent_id = some f.id →
      rank f.id < rank g.id) : Acyclic folders := by
  intro f htg
  have mono : ∀ {a b : PrepFolder}, Relation.TransGen (ChildRel folders) a b →
      rank a.id < rank b.id := by
    intro a b h'
    induction h' with
    | single hr => exact h _ hr.1 _ hr.2.1 hr.2.2
    | tail _ hr ih => exact ih.trans (h _ hr.1 _ hr.2.1 hr.2.2)
  exact absurd (mono htg) (lt_irrefl _)

theorem parentsResolve_of_b {folders : List PrepFolder}
    (h : parentsResolveB folders = true) : ParentsResolve folders := by
  intro f hf q hq
  have hall := List.all_eq_true.mp h f hf
  rw [hq] at hall
  simp only [List.any_eq_true, beq_iff_eq] at hall
  exact hall

/-- C1: for every folder collection with distinct identifiers, no
parent-reference cycles and parent references resolving within the
collection, `buildFolderTree` applied to the null parent succeeds, the
resulting forest carries exactly as many nodes as there are input folders,
and every node's children list consists of exactly those folders whose
parent reference equals that node's identifier. -/
theorem c1_tree_builder_forest (folders : List PrepFolder) (expanded : List String)
    (hn : IdsNodup folders) (hres : ParentsResolve folders) (hac : Acyclic folders) :
    ∃ ts, buildFolderTree folders expanded = some ts ∧
      (allNodesF ts).length = folders.length ∧
      ∀ nd ∈ allNodesF ts,
        nd.children.map FolderTreeNode.toFolder
          = folders.filter (fun g => g.parent_id == some nd.id) := by
  obtain ⟨ts, hts⟩ :=
    Option.isSome_iff_exists.mp (buildFolderTreeF_isSome_of_acyclic hac none)
  have hts' : buildFolderTree folders expanded = some ts := hts
  exact ⟨ts, hts', buildFolderTree_count hn hres hac hts',
    buildFolderTreeF_allNodes_children hts⟩

/-- Witness for C1 on a concrete three-folder collection. -/
theorem c1_tree_builder_forest_witness :
    ∃ ts, buildFolderTree demoFolders [] = some ts ∧
      (allNodesF ts).length = demoFolders.length ∧
      ∀ nd ∈ allNodesF ts,
        nd.children.map FolderTreeNode.toFolder
          = demoFolders.filter (fun g => g.parent_id == some nd.id) :=
  c1_tree_builder_forest demoFolders [] (by decide)
    (parentsResolve_of_b (by decide)) (acyclic_of_rank demoRank (by decide))

theorem cyclic_build_none {expanded : List String} :
    ∀ fuel : Nat,
      buildFolderTreeF cyclicFolders expanded fuel (some "a") = none ∧
      buildFolderTreeF cyclicFolders expanded fuel (some "b") = none := by
  intro fuel
  induction fuel with
  | zero => exact ⟨rfl, rfl⟩
  | succ fuel ih =>
    have hfa : cyclicFolders.filter (fun f => f.parent_id == some "a")
        = [⟨"b", "B", some "a"⟩] := by decide
    have hfb : cyclicFolders.filter (fun f => f.parent_id == some "b")
        = [⟨"a", "A", some "b"⟩] := by decide
    constructor
    · show buildNodes expanded
        (fun i => buildFolderTreeF cyclicFolders expanded fuel (some i))
        (cyclicFolders.filter (fun f => f.parent_id == some "a")) = none
      rw [hfa]
      simp only [buildNodes]
      rw [ih.2]
    · show buildNodes expanded
        (fun i => buildFolderTreeF cyclicFolders expanded fuel (some i))
        (cyclicFolders.filter (fun f => f.parent_id == some "b")) = none
      rw [hfb]
      simp only [buildNodes]
      rw [ih.1]

/-- C2: the tree builder performs no cycle detection.  For every acyclic
folder collection the recursive build terminates (some fuel suffices, at
every requested parent), while on `cyclicFolders` — where folder `a`'s
parent reference is its own descendant `b` — the recursion invoked at
parent `"a"` exhausts every amount of fuel, i.e. the untamed JavaScript
recursion diverges: the builder is not a total function on all inputs. -/
theorem c2_no_cycle_detection :
    (∀ (folders : List PrepFolder) (expanded : List String) (pid : Option String),
        Acyclic folders →
        ∃ fuel, (buildFolderTreeF folders expanded fuel pid).isSome) ∧
    (∃ f ∈ cyclicFolders, ∃ g ∈ cyclicFolders,
        f.parent_id = some g.id ∧
        Relation.TransGen (ChildRel cyclicFolders) f g) ∧
    (∀ (expanded : List String) (fuel : Nat),
        buildFolderTreeF cyclicFolders expanded fuel (some "a") = none) := by
  refine ⟨?_, ?_, ?_⟩
  · intro folders expanded pid hac
    exact ⟨folders.length + 1, buildFolderTreeF_isSome_of_acyclic hac pid⟩
  · refine ⟨⟨"a", "A", some "b"⟩, by decide, ⟨"b", "B", some "a"⟩, by decide, rfl, ?_⟩
    exact Relation.TransGen.single ⟨by decide, by decide, rfl⟩
  · intro expanded fuel
    exact (cyclic_build_none fuel).1

/-- Witness for C2's termination conjunct on the concrete acyclic
collection `demoFolders`. -/
theorem c2_no_cycle_detection_witness :
    ∃ fuel, (buildFolderTreeF demoFolders [] fuel none).isSome :=
  c2_no_cycle_detection.1 demoFolders [] none (acyclic_of_rank demoRank (by decide))

/-- C3: with a folder selected, the content pane shows exactly those items
whose folder reference equals the selected folder's identifier, and an item
sitting in a strict descendant of the selection is never shown. -/
theorem c3_selected_folder_items (items : List PrepItem) (folders : List PrepFolder)
    (sel d : PrepFolder) (hn : IdsNodup folders) (hac : Acyclic folders)
    (hd : Relation.TransGen (ChildRel folders) sel d) :
    (∀ it, it ∈ selectedFolderItems items (some sel.id) ↔
      it ∈ items ∧ it.folder_id = sel.id) ∧
    (∀ it ∈ items, it.folder_id = d.id →
      it ∉ selectedFolderItems items (some sel.id)) := by
  have hmem : ∀ it, it ∈ selectedFolderItems items (some sel.id) ↔
      it ∈ items ∧ it.folder_id = sel.id := by
    intro it
    simp [selectedFolderItems, List.mem_filter]
  refine ⟨hmem, ?_⟩
  intro it hit hfd hsel
  have hids : it.folder_id = sel.id := ((hmem it).mp hsel).2
  have hdid : d.id = sel.id := hfd.symm.trans hids
  have hselm : sel ∈ folders := by
    rcases (Relation.TransGen.head'_iff.mp hd) with ⟨w, hw, _⟩
    exact hw.1
  have hdm : d ∈ folders := by
    rcases (Relation.TransGen.tail'_iff.mp hd) with ⟨w, _, hw⟩
    exact hw.2.1
  have : d = sel := eq_of_id_eq hn hdm hselm hdid
  subst this
  exact hac d hd

/-- Witness for C3: folder `b` is a strict descendant of the selected root
`a`, so the item in `b` is not shown when `a` is selected. -/
theorem c3_selected_folder_items_witness :
    PrepItem.mk "x1" "b" "note" "scratch" "" "" "" "" "hello" [] "2025-11-21"
      ∉ selectedFolderItems demoItems (some "a") :=
  (c3_selected_folder_items demoItems demoFolders ⟨"a", "Root", none⟩
      ⟨"b", "Stories", some "a"⟩ (by decide)
      (acyclic_of_rank demoRank (by decide))
      (Relation.TransGen.single ⟨by decide, by decide, rfl⟩)).2
    _ (by decide) rfl

theorem rlsSelect_owner {α : Type} {policy : String → α → Bool}
    {owner : α → String} (hpol : ∀ uid r, policy uid r = (uid == owner r))
    (uid : String) (rows : List α) :
    ∀ r ∈ rlsSelect policy uid rows, owner r = uid := by
  intro r hr
  have := (List.mem_filter.mp hr).2
  rw [hpol] at this
  exact (beq_iff_eq.mp this).symm

theorem rlsSelect_cross_user_empty {α : Type} {policy : String → α → Bool}
    {owner : α → String} (hpol : ∀ uid r, policy uid r = (uid == owner r))
    {u1 u2 : String} (hne : u1 ≠ u2) (rows : List α)
    (hown : ∀ r ∈ rows, owner r = u2) :
    rlsSelect policy u1 rows = [] := by
  rw [rlsSelect, List.filter_eq_nil_iff]
  intro r hr
  rw [hpol]
  intro hbeq
  exact hne ((beq_iff_eq.mp hbeq).trans (hown r hr))

/-- C5: read isolation between distinct users.  For each of the six tables,
the SELECT policy admits a row only when the caller's identity equals the
row's owner column, so a read issued by one user over rows owned by another
user — including a query by the row's identifier — returns zero rows. -/
theorem c5_rls_read_isolation (u1 u2 : String) (hne : u1 ≠ u2) :
    ((∀ rows : List ProfileRow, ∀ r ∈ rlsSelect profilesSelectPolicy u1 rows,
        r.id = u1) ∧
      ∀ rows : List ProfileRow, (∀ r ∈ rows, r.id = u2) → ∀ tid,
        rlsSelect profilesSelectPolicy u1 (rows.filter (fun r => r.id == tid)) = []) ∧
    ((∀ rows : List JobRow, ∀ r ∈ rlsSelect jobsSelectPolicy u1 rows,
        r.user_id = u1) ∧
      ∀ rows : List JobRow, (∀ r ∈ rows, r.user_id = u2) → ∀ tid,
        rlsSelect jobsSelectPolicy u1 (rows.filter (fun r => r.id == tid)) = []) ∧
    ((∀ rows : List StoryRow, ∀ r ∈ rlsSelect storiesSelectPolicy u1 rows,
        r.user_id = u1) ∧
      ∀ rows : List StoryRow, (∀ r ∈ rows, r.user_id = u2) → ∀ tid,
        rlsSelect storiesSelectPolicy u1 (rows.filter (fun r => r.id == tid)) = []) ∧
    ((∀ rows : List NoteRow, ∀ r ∈ rlsSelect notesSelectPolicy u1 rows,
        r.user_id = u1) ∧
      ∀ rows : List NoteRow, (∀ r ∈ rows, r.user_id = u2) → ∀ tid,
        rlsSelect notesSelectPolicy u1 (rows.filter (fun r => r.id == tid)) = []) ∧
    ((∀ rows : List PrepFolderRow, ∀ r ∈ rlsSelect prepFoldersSelectPolicy u1 rows,
        r.user_id = u1) ∧
      ∀ rows : List PrepFolderRow, (∀ r ∈ rows, r.user_id = u2) → ∀ tid,
        rlsSelect prepFoldersSelectPolicy u1 (rows.filter (fun r => r.id == tid)) = []) ∧
    ((∀ rows : List PrepItemRow, ∀ r ∈ rlsSelect prepItemsSelectPolicy u1 rows,
        r.user_id = u1) ∧
      ∀ rows : List PrepItemRow, (∀ r ∈ rows, r.user_id = u2) → ∀ tid,
        rlsSelect prepItemsSelectPolicy u1 (rows.filter (fun r => r.id == tid)) = []) := by
  refine ⟨⟨?_, ?_⟩, ⟨?_, ?_⟩, ⟨?_, ?_⟩, ⟨?_, ?_⟩, ⟨?_, ?_⟩, ⟨?_, ?_⟩⟩
  · exact fun rows => rlsSelect_owner (fun _ _ => rfl) u1 rows
  · exact fun rows hown tid => rlsSelect_cross_user_empty (fun _ _ => rfl) hne _
      (fun r hr => hown r (List.mem_filter.mp hr).1)
  · exact fun rows => rlsSelect_owner (fun _ _ => rfl) u1 rows
  · exact fun rows hown tid => rlsSelect_cross_user_empty (fun _ _ => rfl) hne _
      (fun r hr => hown r (List.mem_filter.mp hr).1)
  · exact fun rows => rlsSelect_owner (fun _ _ => rfl) u1 rows
  · exact fun rows hown tid => rlsSelect_cross_user_empty (fun _ _ => rfl) hne _
      (fun r hr => hown r (List.mem_filter.mp hr).1)
  · exact fun rows => rlsSelect_owner (fun _ _ => rfl) u1 rows
  · exact fun rows hown tid => rlsSelect_cross_user_empty (fun _ _ => rfl) hne _
      (fun r hr => hown r (List.mem_filter.mp hr).1)
  · exact fun rows => rlsSelect_owner (fun _ _ => rfl) u1 rows
  · exact fun rows hown tid => rlsSelect_cross_user_empty (fun _ _ => rfl) hne _
      (fun r hr => hown r (List.mem_filter.mp hr).1)
  · exact fun rows => rlsSelect_owner (fun _ _ => rfl) u1 rows
  · exact fun rows hown tid => rlsSelect_cross_user_empty (fun _ _ => rfl) hne _
      (fun r hr => hown r (List.mem_filter.mp hr).1)

/-- Witness for C5: `alice` querying `bob`'s job row by its identifier gets
zero rows back. -/
theorem c5_rls_read_isolation_witness :
    rlsSelect jobsSelectPolicy "alice"
      ([demoJobRow].filter (fun r => r.id == "j1")) = [] :=
  (c5_rls_read_isolation "alice" "bob" (by decide)).2.1.2 [demoJobRow]
    (by intro r hr; rw [List.mem_singleton.mp hr]; rfl) "j1"

/-- C6: tag editing on the draft record is idempotent — adding an
already-present tag and removing an absent tag are both no-ops — and adding
never introduces a duplicate into a duplicate-free tag list. -/
theorem c6_tag_editing_idempotent :
    (∀ (tagInput : String) (tags : List String), jsTrim tagInput ∈ tags →
      handleAddTag tagInput tags = tags) ∧
    (∀ (tagToRemove : String) (tags : List String), tagToRemove ∉ tags →
      handleRemoveTag tagToRemove tags = tags) ∧
    (∀ (tagInput : String) (tags : List String), tags.Nodup →
      (handleAddTag tagInput tags).Nodup) := by
  refine ⟨?_, ?_, ?_⟩
  · intro tagInput tags h
    simp [handleAddTag, h]
  · intro tagToRemove tags h
    rw [handleRemoveTag]
    apply List.filter_eq_self.mpr
    intro a ha
    simp only [bne_iff_ne, ne_eq]
    intro he
    exact h (he ▸ ha)
  · intro tagInput tags hnd
    rw [handleAddTag]
    split
    · rename_i hc
      exact List.Nodup.append hnd (List.nodup_singleton _)
        (fun a ha hb => hc.2 ((List.mem_singleton.mp hb) ▸ ha))
    · exact hnd

/-- Witness for C6 at concrete tag lists. -/
theorem c6_tag_editing_idempotent_witness :
    handleAddTag "Leadership" ["Leadership"] = ["Leadership"] ∧
    handleRemoveTag "Teamwork" ["Leadership"] = ["Leadership"] ∧
    (handleAddTag "Teamwork" ["Leadership"]).Nodup :=
  ⟨c6_tag_editing_idempotent.1 "Leadership" ["Leadership"] (by decide),
    c6_tag_editing_idempotent.2.1 "Teamwork" ["Leadership"] (by decide),
    c6_tag_editing_idempotent.2.2 "Teamwork" ["Leadership"] (by decide)⟩

/-- C7: a job-application save with an empty (or whitespace-only) role or
company is rejected client-side with a validation message, no storage call
is issued, and the stored collection is unchanged. -/
theorem c7_job_validation (editingJob : Option Job) (formData : JobFormData)
    (uid now freshId : String) (db : List JobRow)
    (h : jsTrim formData.role = "" ∨ jsTrim formData.company = "") :
    dashboardHandleSubmit editingJob formData uid now
      = .validationError "Role and Company are required" ∧
    applyJobSubmit db freshId (dashboardHandleSubmit editingJob formData uid now)
      = db := by
  have hact : dashboardHandleSubmit editingJob formData uid now
      = .validationError "Role and Company are required" := by
    unfold dashboardHandleSubmit
    rw [if_pos h]
  exact ⟨hact, by rw [hact]; rfl⟩

/-- Witness for C7 on a whitespace-only role. -/
theorem c7_job_validation_witness :
    dashboardHandleSubmit none ⟨"   ", "Acme", "Applied", "2025-10-19", "", ""⟩
        "alice" "t1"
      = .validationError "Role and Company are required" ∧
    applyJobSubmit [demoJobRow] "j2"
        (dashboardHandleSubmit none ⟨"   ", "Acme", "Applied", "2025-10-19", "", ""⟩
          "alice" "t1")
      = [demoJobRow] :=
  c7_job_validation none ⟨"   ", "Acme", "Applied", "2025-10-19", "", ""⟩
    "alice" "t1" "j2" [demoJobRow] (Or.inl (by decide))

/-- C9: an item's kind discriminator is fixed at creation.  Every inserted
row's `type` satisfies the storage CHECK (`story` or `note`), and the edit
path's update payload omits `type` (and `folder_id`), so after any update
the stored type equals the type before. -/
theorem c9_item_type_fixed :
    (∀ (freshId uid folderId : String) (mode : ItemKind) (fd : ItemFormData)
        (now : String),
      prepItemTypeCheck
        (insertPrepItemRow freshId uid folderId mode fd now).type = true) ∧
    (∀ (row : PrepItemRow) (fd : ItemFormData) (now : String),
      (applyPrepItemUpdate row fd now).type = row.type ∧
      (applyPrepItemUpdate row fd now).folder_id = row.folder_id) := by
  constructor
  · intro freshId uid folderId mode fd now
    cases mode <;> rfl
  · intro row fd now
    exact ⟨rfl, rfl⟩

/-- C10: every folder created through the folder-creation modal is inserted
with its parent reference equal to the currently selected folder identifier
(a root when no folder is selected); only the empty-state action inserts an
explicit null parent (named 'Root'). -/
theorem c10_new_folder_parent :
    (∀ (uid folderName : String) (selectedFolderId : Option String),
      (handleSaveFolderInsertPayload uid folderName selectedFolderId).parent_id
        = selectedFolderId) ∧
    (∀ uid : String, (createRootFolderPayload uid).parent_id = none ∧
      (createRootFolderPayload uid).name = "Root") :=
  ⟨fun _ _ _ => rfl, fun _ => ⟨rfl, rfl⟩⟩

/-- C8: for every save, delete, or fetch operation of the Preparation page,
a failed storage call leaves the client-side collections and selection
exactly as they were before the call (only a notification is emitted), no
failure is fatal (each handler is a total function), and retrying the same
operation after a failure behaves exactly as if the failure had not
happened. -/
theorem c8_failure_leaves_state (st : PrepState) (e : String) :
    (∀ (editingFolder : Option PrepFolder) (folderName : String),
      (handleSaveFolder st editingFolder folderName (Except.error e)).1 = st) ∧
    (∀ title : String,
      (handleSaveItem st title (Except.error e)).1 = st) ∧
    (∀ (id : String) (confirmed : Bool),
      (handleDeleteFolderClient st id confirmed (Except.error e)).1 = st) ∧
    (∀ (id : String) (confirmed : Bool),
      (handleDeleteItemClient st id confirmed (Except.error e)).1 = st) ∧
    ((fetchDataClient st (Except.error e)).1 = st) ∧
    (∀ (editingFolder : Option PrepFolder) (folderName : String)
        (res : Except String PrepFolder),
      handleSaveFolder
          (handleSaveFolder st editingFolder folderName (Except.error e)).1
          editingFolder folderName res
        = handleSaveFolder st editingFolder folderName res) := by
  have hsf : ∀ (editingFolder : Option PrepFolder) (folderName : String),
      (handleSaveFolder st editingFolder folderName (Except.error e)).1 = st := by
    intro ef folderName
    unfold handleSaveFolder
    split
    · rfl
    · cases ef <;> rfl
  refine ⟨hsf, ?_, ?_, ?_, rfl, ?_⟩
  · intro title
    unfold handleSaveItem
    split
    · rfl
    · cases st.selectedFolderId <;> rfl
  · intro id confirmed
    unfold handleDeleteFolderClient
    split <;> rfl
  · intro id confirmed
    unfold handleDeleteItemClient
    split <;> rfl
  · intro ef folderName res
    rw [hsf ef folderName]

theorem mem_cascadeStep {folders : List PrepFolder} {removed : List String}
    {x : String} :
    x ∈ cascadeStep folders removed ↔
      x ∈ removed ∨
        ∃ f ∈ folders, f.id = x ∧ ∃ q, f.parent_id = some q ∧ q ∈ removed := by
  constructor
  · intro h
    rcases List.mem_append.mp h with h | h
    · exact Or.inl h
    · obtain ⟨f, hf, hfx⟩ := List.mem_map.mp h
      obtain ⟨hfm, hcond⟩ := List.mem_filter.mp hf
      cases hp : f.parent_id with
      | none => rw [hp] at hcond; simp at hcond
      | some q =>
        rw [hp] at hcond
        simp only [Bool.and_eq_true] at hcond
        exact Or.inr ⟨f, hfm, hfx, q, hp, by simpa using hcond.1⟩
  · intro h
    rcases h with h | ⟨f, hfm, hfx, q, hp, hq⟩
    · exact List.mem_append.mpr (Or.inl h)
    · by_cases hin : x ∈ removed
      · exact List.mem_append.mpr (Or.inl hin)
      · refine List.mem_append.mpr (Or.inr (List.mem_map.mpr
          ⟨f, List.mem_filter.mpr ⟨hfm, ?_⟩, hfx⟩))
        rw [hp]
        simp only [Bool.and_eq_true, Bool.not_eq_true']
        refine ⟨by simp [hq], ?_⟩
        rw [hfx]
        simpa using hin

theorem subset_cascadeStep {folders : List PrepFolder} {removed : List String} :
    removed ⊆ cascadeStep folders removed :=
  fun _ hx => List.mem_append.mpr (Or.inl hx)

theorem cascadeStep_mono {folders : List PrepFolder} {r1 r2 : List String}
    (h : r1 ⊆ r2) : cascadeStep folders r1 ⊆ cascadeStep folders r2 := by
  intro x hx
  rcases mem_cascadeStep.mp hx with hx | ⟨f, hfm, hfx, q, hp, hq⟩
  · exact mem_cascadeStep.mpr (Or.inl (h hx))
  · exact mem_cascadeStep.mpr (Or.inr ⟨f, hfm, hfx, q, hp, h hq⟩)

theorem subset_iterateCascade {folders : List PrepFolder} :
    ∀ {k : Nat} {r : List String}, r ⊆ iterateCascade folders k r := by
  intro k
  induction k with
  | zero => intro r; exact fun _ hx => hx
  | succ k ih =>
    intro r
    exact fun x hx => subset_cascadeStep (ih hx)

theorem iterateCascade_mono_set {folders : List PrepFolder} :
    ∀ {k : Nat} {r1 r2 : List String}, r1 ⊆ r2 →
      iterateCascade folders k r1 ⊆ iterateCascade folders k r2 := by
  intro k
  induction k with
  | zero => intro r1 r2 h; exact h
  | succ k ih => intro r1 r2 h; exact cascadeStep_mono (ih h)

theorem iterateCascade_le {folders : List PrepFolder} :
    ∀ {k j : Nat} {r : List String}, k ≤ j →
      iterateCascade folders k r ⊆ iterateCascade folders j r := by
  intro k j
  intro r h
  induction h with
  | refl => exact fun _ hx => hx
  | step _ ih => exact fun x hx => subset_cascadeStep (ih hx)

theorem idPath_snoc {folders : List PrepFolder} :
    ∀ {s : String} {ys : List String}, IdPath folders s ys →
      ∀ {z w : String}, ys.getLast? = some z → IdChild folders z w →
        IdPath folders s (ys ++ [w]) := by
  intro s ys h
  induction h with
  | nil => intro z w hlast _; simp at hlast
  | cons hxy hrest ih =>
    rename_i x y ys'
    intro z w hlast hzw
    cases ys' with
    | nil =>
      have hz : z = y := by simpa using hlast.symm
      subst hz
      exact IdPath.cons hxy (IdPath.cons hzw (IdPath.nil _))
    | cons a as =>
      have hlast' : (a :: as).getLast? = some z := by
        rwa [List.getLast?_cons_cons] at hlast
      exact IdPath.cons hxy (ih hlast' hzw)

theorem idPath_to_descent {folders : List PrepFolder} :
    ∀ {s : String} {ys : List String}, IdPath folders s ys →
      ∃ path : List PrepFolder, Descent folders (some s) path ∧
        path.length = ys.length := by
  intro s ys h
  induction h with
  | nil => exact ⟨[], Descent.nil _, rfl⟩
  | cons hxy _ ih =>
    obtain ⟨f, hfm, hfy, hfp⟩ := hxy
    obtain ⟨path, hd, hlen⟩ := ih
    refine ⟨f :: path, Descent.cons hfm hfp ?_, by simp [hlen]⟩
    rwa [hfy]

theorem idPath_length_le {folders : List PrepFolder} (hac : Acyclic folders)
    {s : String} {ys : List String} (h : IdPath folders s ys) :
    ys.length ≤ folders.length := by
  obtain ⟨path, hd, hlen⟩ := idPath_to_descent h
  exact hlen ▸ descent_length_le hac hd

theorem iterateCascade_step_comm {folders : List PrepFolder} :
    ∀ {k : Nat} {r : List String},
      iterateCascade folders k (cascadeStep folders r)
        ⊆ iterateCascade folders (k + 1) r := by
  intro k
  induction k with
  | zero => intro r x hx; exact hx
  | succ k ih =>
    intro r x hx
    exact cascadeStep_mono ih hx

theorem idPath_mem_iterate {folders : List PrepFolder} :
    ∀ {s : String} {ys : List String}, IdPath folders s ys →
      ∀ x, ys.getLast? = some x →
        x ∈ iterateCascade folders ys.length [s] := by
  intro s ys h
  induction h with
  | nil => intro x hx; simp at hx
  | cons hxy hrest ih =>
    rename_i s' y ys'
    intro x hlast
    cases ys' with
    | nil =>
      have hx : x = y := by simpa using hlast.symm
      subst hx
      show x ∈ cascadeStep folders (iterateCascade folders 0 [s'])
      obtain ⟨f, hfm, hfy, hfp⟩ := hxy
      exact mem_cascadeStep.mpr
        (Or.inr ⟨f, hfm, hfy, s', hfp, List.mem_singleton.mpr rfl⟩)
    | cons a as =>
      have hlast' : (a :: as).getLast? = some x := by
        rwa [List.getLast?_cons_cons] at hlast
      have hx : x ∈ iterateCascade folders (a :: as).length [y] := ih x hlast'
      have hy : [y] ⊆ cascadeStep folders [s'] := by
        intro z hz
        rw [List.mem_singleton.mp hz]
        obtain ⟨f, hfm, hfy, hfp⟩ := hxy
        exact mem_cascadeStep.mpr
          (Or.inr ⟨f, hfm, hfy, s', hfp, List.mem_singleton.mpr rfl⟩)
      have hx2 := iterateCascade_mono_set hy hx
      exact iterateCascade_step_comm hx2

theorem iterate_sound {folders : List PrepFolder} {fid : String} :
    ∀ {k : Nat} {r : List String}, (∀ y ∈ r, InSubtree folders fid y) →
      ∀ x ∈ iterateCascade folders k r, InSubtree folders fid x := by
  intro k
  induction k with
  | zero => intro r h; exact h
  | succ k ih =>
    intro r h x hx
    rcases mem_cascadeStep.mp hx with hx | ⟨f, hfm, hfx, q, hp, hq⟩
    · exact ih h x hx
    · exact Relation.ReflTransGen.tail (ih h q hq) ⟨f, hfm, hfx, hp⟩

theorem insubtree_to_idPath {folders : List PrepFolder} {fid : String} :
    ∀ {x : String}, InSubtree folders fid x →
      x = fid ∨ ∃ ys, IdPath folders fid ys ∧ ys.getLast? = some x := by
  intro x h
  induction h with
  | refl => exact Or.inl rfl
  | tail hrt hc ih =>
    rename_i z w
    rcases ih with ih | ⟨ys, hpath, hlast⟩
    · subst ih
      exact Or.inr ⟨[w], IdPath.cons hc (IdPath.nil _), rfl⟩
    · exact Or.inr ⟨ys ++ [w], idPath_snoc hpath hlast hc, by simp⟩

theorem mem_removedFolderIds {folders : List PrepFolder} (hac : Acyclic folders)
    {fid x : String} :
    x ∈ removedFolderIds folders fid ↔ InSubtree folders fid x := by
  constructor
  · intro h
    refine iterate_sound ?_ x h
    intro y hy
    rw [List.mem_singleton.mp hy]
    exact Relation.ReflTransGen.refl
  · intro h
    rcases insubtree_to_idPath h with he | ⟨ys, hpath, hlast⟩
    · subst he
      exact subset_iterateCascade (List.mem_singleton.mpr rfl)
    · have h1 := idPath_mem_iterate hpath x hlast
      exact iterateCascade_le (idPath_length_le hac hpath) h1

/-- C4: deleting a folder removes that folder, every folder of its
descendant subtree (transitively along the parent reference) and every item
whose folder is any removed folder — effected by the single
delete-by-identifier call of `handleDeleteFolderCall`, whose removal set is
the storage layer's foreign-key cascade, with no application code iterating
the subtree. -/
theorem c4_cascading_delete (folders : List PrepFolder) (items : List PrepItem)
    (fid : String) (hac : Acyclic folders) :
    (∀ f ∈ folders,
      f ∈ (handleDeleteFolderCall folders items fid).1 ↔
        ¬ InSubtree folders fid f.id) ∧
    (∀ it ∈ items,
      it ∈ (handleDeleteFolderCall folders items fid).2 ↔
        ¬ InSubtree folders fid it.folder_id) := by
  have hchar : ∀ x : String,
      ((removedFolderIds folders fid).contains x = false ↔
        ¬ InSubtree folders fid x) := by
    intro x
    rw [← mem_removedFolderIds hac]
    simp
  constructor
  · intro f hf
    constructor
    · intro hmem
      have hb := (List.mem_filter.mp hmem).2
      rw [Bool.not_eq_true'] at hb
      exact (hchar f.id).mp hb
    · intro hni
      refine List.mem_filter.mpr ⟨hf, ?_⟩
      rw [Bool.not_eq_true']
      exact (hchar f.id).mpr hni
  · intro it hit
    constructor
    · intro hmem
      have hb := (List.mem_filter.mp hmem).2
      rw [Bool.not_eq_true'] at hb
      exact (hchar it.folder_id).mp hb
    · intro hni
      refine List.mem_filter.mpr ⟨hit, ?_⟩
      rw [Bool.not_eq_true']
      exact (hchar it.folder_id).mpr hni

/-- Witness for C4: deleting root `a` of `demoFolders` removes child folder
`b` and the item living in `b`. -/
theorem c4_cascading_delete_witness :
    PrepFolder.mk "b" "Stories" (some "a")
        ∉ (handleDeleteFolderCall demoFolders demoItems "a").1 ∧
    PrepItem.mk "x1" "b" "note" "scratch" "" "" "" "" "hello" [] "2025-11-21"
        ∉ (handleDeleteFolderCall demoFolders demoItems "a").2 := by
  have h := c4_cascading_delete demoFolders demoItems "a"
    (acyclic_of_rank demoRank (by decide))
  have hsub : InSubtree demoFolders "a" "b" :=
    Relation.ReflTransGen.single ⟨⟨"b", "Stories", some "a"⟩, by decide, rfl, rfl⟩
  exact ⟨fun hm => ((h.1 _ (by decide)).mp hm) hsub,
    fun hm => ((h.2 _ (by decide)).mp hm) hsub⟩
